import Mathlib

/-!
Shallow embedding of the pathfinding-robot-sim repository
(src/agent/battery.py, src/agent/vacuum.py, src/environment/grid.py,
src/utils/metrics.py) and proofs about the embedded definitions.

Python integers are modelled as `ℤ`; the float `epsilon` and the
priority values `f` of the search frontier are modelled as `ℚ` (for the
inputs the claims use, `epsilon = 1.0`, Python float arithmetic on these
small integers is exact, so the rational model agrees with the float
one).  Python lists are Lean lists, Python sets are `Finset`s, and the
mutation of `self` is explicit state passing.
-/

namespace VacuumSim

/-! ## Battery (src/agent/battery.py) -/

/-- State of `Battery`: fields `capacity`, `current`, `drain_rate`,
`charge_rate`, `total_consumed`, `charge_cycles`. -/
structure Battery where
  capacity : ℤ
  current : ℤ
  drain_rate : ℤ
  charge_rate : ℤ
  total_consumed : ℤ
  charge_cycles : ℤ
deriving DecidableEq

/-- Python `Battery.__init__`: sets `current = capacity` and both counters to 0.
The Python constructor performs no validation of its arguments. -/
def Battery.init (capacity drain_rate charge_rate : ℤ) : Battery :=
  ⟨capacity, capacity, drain_rate, charge_rate, 0, 0⟩

/-- Python `Battery()` with the default arguments `capacity=100, drain_rate=1,
charge_rate=5`, as built by `VaccumCleaner.__init__`. -/
def Battery.default : Battery := Battery.init 100 1 5

/-- Python `Battery.consume(amount=None)`: `amount = None` means `drain_rate`;
`current = max(0, current - amount)`, `total_consumed += amount`, and the
returned boolean is `current > 0` after the update. -/
def Battery.consume (b : Battery) (amount : Option ℤ) : Bool × Battery :=
  let a := amount.getD b.drain_rate
  let c := max 0 (b.current - a)
  (decide (0 < c), { b with current := c, total_consumed := b.total_consumed + a })

/-- Python `Battery.charge()`: `current = min(capacity, current + charge_rate)`;
`charge_cycles` increments exactly when the old level was strictly below
capacity and the new level equals capacity. -/
def Battery.charge (b : Battery) : Battery :=
  let old_level := b.current
  let c := min b.capacity (b.current + b.charge_rate)
  { b with
    current := c
    charge_cycles :=
      if old_level < b.capacity ∧ c = b.capacity then b.charge_cycles + 1
      else b.charge_cycles }

/-- Python `Battery.needs_charging(threshold=20)`: `current <= threshold`. -/
def Battery.needs_charging (b : Battery) (threshold : ℤ) : Bool :=
  decide (b.current ≤ threshold)

/-- Python `Battery.is_empty()`: `current <= 0`. -/
def Battery.is_empty (b : Battery) : Bool :=
  decide (b.current ≤ 0)

/-- One call of the battery API that mutates state. -/
inductive BatteryOp where
  | consume (amount : Option ℤ)
  | charge
deriving DecidableEq

/-- Apply one call to the battery state (the caller-visible return value
of `consume` is dropped). -/
def Battery.applyOp (b : Battery) : BatteryOp → Battery
  | .consume a => (b.consume a).2
  | .charge => b.charge

/-- Apply a finite sequence of calls in order. -/
def Battery.applyOps (b : Battery) (ops : List BatteryOp) : Battery :=
  ops.foldl Battery.applyOp b

/-- Every explicit `consume` amount in the sequence is non-negative. -/
def opsNonneg (ops : List BatteryOp) : Prop :=
  ∀ a : ℤ, BatteryOp.consume (some a) ∈ ops → 0 ≤ a

/-! ## Grid environment (src/environment/grid.py)

Cell values: 0 = clean, 1 = dirty, -1 = obstacle, 2 = charging station. -/

abbrev Pos := ℤ × ℤ

abbrev Grid := List (List ℤ)

/-- Read `grid[y][x]`.  Every read in the embedded code is either guarded
by `0 ≤ x, y < size` or performed at the agent position, which stays in
bounds; out-of-range reads default to 0. -/
def cellAt (grid : Grid) (x y : ℤ) : ℤ :=
  (grid.getD y.toNat []).getD x.toNat 0

/-- Write `grid[y][x] = v` at natural-number indices (a no-op out of
range, where Python would raise). -/
def setCellN (grid : Grid) (x y : ℕ) (v : ℤ) : Grid :=
  grid.set y ((grid.getD y []).set x v)

/-- Write `grid[y][x] = v` at integer coordinates. -/
def setCell (grid : Grid) (x y : ℤ) (v : ℤ) : Grid :=
  setCellN grid x.toNat y.toNat v

structure Environment where
  size : ℕ
  grid : Grid
deriving DecidableEq

/-- Python `Environment.__init__(size, dirt_prob)` with the random draws made
explicit: `dirt y x = true` iff `random.random() <= dirt_prob` for the
cell in row `y`, column `x`.  The writes happen in source order: the
start cell `[0][0]` is cleared, then the charging station is placed at
`[size-1][size-1]`, then the example obstacle at `[2][2]`.  The Python
constructor raises `IndexError` unless `size ≥ 3` (it writes
`grid[2][2]`), so only those sizes are constructible. -/
def Environment.init (size : ℕ) (dirt : ℕ → ℕ → Bool) : Environment :=
  let base : Grid :=
    (List.range size).map fun y =>
      (List.range size).map fun x => if dirt y x then 1 else 0
  ⟨size, setCellN (setCellN (setCellN base 0 0 0) (size - 1) (size - 1) 2) 2 2 (-1)⟩

/-- Python `Environment.get_dirty_cells()`: the row-major list of `(x, y)` with
`grid[y][x] == 1`. -/
def Environment.get_dirty_cells (env : Environment) : List Pos :=
  ((List.range env.size).map fun y =>
    (List.range env.size).filterMap fun x =>
      if cellAt env.grid (x : ℤ) (y : ℤ) = 1 then some ((x : ℤ), (y : ℤ)) else none).flatten

/-- All in-bounds coordinates of a `size × size` grid. -/
def gridPositions (size : ℕ) : Finset Pos :=
  Finset.Icc 0 ((size : ℤ) - 1) ×ˢ Finset.Icc 0 ((size : ℤ) - 1)

/-- The in-bounds cells holding the charger marker 2. -/
def chargerCells (env : Environment) : Finset Pos :=
  (gridPositions env.size).filter fun p => cellAt env.grid p.1 p.2 = 2

/-- The grid really is a `size × size` matrix (true of every environment
the Python constructor builds). -/
def gridWF (env : Environment) : Prop :=
  env.grid.length = env.size ∧ ∀ row ∈ env.grid, row.length = env.size

instance (env : Environment) : Decidable (gridWF env) :=
  decidable_of_iff
    (env.grid.length = env.size ∧ ∀ row ∈ env.grid, row.length = env.size) Iff.rfl

/-! ## Metrics recorder (src/utils/metrics.py) -/

/-- One element of `decisions_made`: the dict appended by
`PerformanceMetrics.record_step`. -/
structure StepEvent where
  step : ℕ
  position : Pos
  action : String
  battery : ℤ
  strategy : String
deriving DecidableEq

/-- The mutable state of `PerformanceMetrics` that the embedded code
touches (wall-clock `start_time` and the never-updated `steps` /
`efficiency` sub-counters of `strategies_tested` are omitted;
`strategies_tested` keeps only the `dirt_cleaned` counter per key). -/
structure Metrics where
  steps_taken : ℕ
  dirt_cleaned : ℕ
  cells_visited : Finset Pos
  battery_usage : List ℤ
  decisions_made : List StepEvent
  strategies_tested : List (String × ℕ)
deriving DecidableEq

/-- Python `PerformanceMetrics.__init__`. -/
def Metrics.init : Metrics :=
  ⟨0, 0, ∅, [], [], [(("random"), 0), (("astar"), 0), (("optimized"), 0)]⟩

/-- Python `PerformanceMetrics.record_step(position, battery_level, action,
strategy)`. -/
def Metrics.record_step (m : Metrics) (position : Pos) (battery_level : ℤ)
    (action strategy : String) : Metrics :=
  { m with
    steps_taken := m.steps_taken + 1
    cells_visited := insert position m.cells_visited
    battery_usage := m.battery_usage ++ [battery_level]
    decisions_made := m.decisions_made ++
      [⟨m.steps_taken + 1, position, action, battery_level, strategy⟩] }

/-- Python `PerformanceMetrics.record_cleaning(strategy)`. -/
def Metrics.record_cleaning (m : Metrics) (strategy : String) : Metrics :=
  { m with
    dirt_cleaned := m.dirt_cleaned + 1
    strategies_tested := m.strategies_tested.map fun kv =>
      if kv.1 = strategy then (kv.1, kv.2 + 1) else kv }

/-! ## A* search (VaccumCleaner.a_star and helpers, src/agent/vacuum.py)

The Python implementation keeps a `heapq` of tuples
`(f, g, current, path)` ordered by Python's lexicographic tuple `<`.
`heappop` always returns a least element of the heap, and distinct
entries never compare equal (the `path` component determines the entire
tuple and every pushed path is distinct), so the heap is modelled by a
plain list from which `popMin` extracts the unique least entry. -/

/-- Python `VaccumCleaner.heuristic(a, b)`: Manhattan distance. -/
def heuristic (a b : Pos) : ℤ :=
  |a.1 - b.1| + |a.2 - b.2|

/-- One frontier entry: the tuple `(f, g, current, path)` pushed on the
heap.  `f` is a Python float; for the epsilon values the claims use the
arithmetic is exact, so it is modelled as a rational. -/
structure Entry where
  f : ℚ
  g : ℕ
  pos : Pos
  path : List Pos
deriving DecidableEq

/-- Python `<` on coordinate pairs (lexicographic tuple comparison). -/
def posLtB (p q : Pos) : Bool :=
  decide (p.1 < q.1) || (decide (p.1 = q.1) && decide (p.2 < q.2))

/-- Python `<` on lists of coordinate pairs (lexicographic). -/
def pathLtB : List Pos → List Pos → Bool
  | [], [] => false
  | [], _ :: _ => true
  | _ :: _, [] => false
  | p :: ps, q :: qs => posLtB p q || (decide (p = q) && pathLtB ps qs)

/-- Python `<=` on heap entries: lexicographic on `(f, g, pos, path)`. -/
def entryLeB (a b : Entry) : Bool :=
  decide (a.f < b.f) ||
    (decide (a.f = b.f) &&
      (decide (a.g < b.g) ||
        (decide (a.g = b.g) &&
          (posLtB a.pos b.pos ||
            (decide (a.pos = b.pos) &&
              (pathLtB a.path b.path || decide (a.path = b.path)))))))

/-- Extract the leftmost least entry from the frontier, with the rest of
the frontier (`heapq.heappop`). -/
def popMin : List Entry → Option (Entry × List Entry)
  | [] => none
  | e :: rest =>
    match popMin rest with
    | none => some (e, [])
    | some (m, rest2) => if entryLeB e m then some (e, rest) else some (m, e :: rest2)

/-- The neighbor entries pushed for the popped entry `e`: the loop body
of `a_star` over the four directions, in source order, keeping the
in-bounds non-obstacle neighbors not yet in `visited`. -/
def expand (grid : Grid) (size : ℕ) (eps : ℚ) (goal : Pos)
    (visited : List Pos) (e : Entry) : List Entry :=
  [((0 : ℤ), (1 : ℤ)), (0, -1), (1, 0), (-1, 0)].filterMap fun d =>
    let n : Pos := (e.pos.1 + d.1, e.pos.2 + d.2)
    if 0 ≤ n.1 ∧ n.1 < (size : ℤ) ∧ 0 ≤ n.2 ∧ n.2 < (size : ℤ) ∧
        cellAt grid n.1 n.2 ≠ -1 ∧ n ∉ visited then
      some ⟨((e.g + 1 : ℕ) : ℚ) + eps * ((heuristic n goal : ℤ) : ℚ),
        e.g + 1, n, e.path ++ [n]⟩
    else none

/-- The `while open_set:` loop of `a_star`.  The fuel argument only pays
for the bounded number of iterations the Python loop performs (see
`aStarFuel`); `none` means the fuel ran out before the loop finished,
which a sufficient fuel never lets happen. -/
def aStarLoop (grid : Grid) (size : ℕ) (eps : ℚ) (goal : Pos) :
    ℕ → List Entry → List Pos → Option (List Pos)
  | 0, _, _ => none
  | fuel + 1, frontier, visited =>
    match popMin frontier with
    | none => some []
    | some (e, rest) =>
      if e.pos = goal then some e.path.tail
      else if e.pos ∈ visited then aStarLoop grid size eps goal fuel rest visited
      else aStarLoop grid size eps goal fuel
        (rest ++ expand grid size eps goal (e.pos :: visited) e) (e.pos :: visited)

/-- An iteration bound for the `a_star` loop: each iteration that marks a
cell visited removes one element from the at most `size * size + 1`
candidate cells (the start included) while pushing at most 4 entries,
and every other iteration shrinks the frontier, so
`5 * (size * size + 1) + 1` iterations are never reached; `a_star`
always terminates within this fuel. -/
def aStarFuel (size : ℕ) : ℕ :=
  5 * size * size + 12

/-- Python `VaccumCleaner.a_star(start, goal)`: the initial frontier holds
`(0 + heuristic(start, goal), 0, start, [start])` (note: the initial
priority is not scaled by epsilon), and the function returns `path[1:]`
of the first popped entry at the goal, or `[]` when the frontier drains. -/
def aStar (grid : Grid) (size : ℕ) (eps : ℚ) (start goal : Pos) : List Pos :=
  (aStarLoop grid size eps goal (aStarFuel size)
    [⟨((heuristic start goal : ℤ) : ℚ), 0, start, [start]⟩] []).getD []

/-! ## Agent (VaccumCleaner, src/agent/vacuum.py) -/

/-- The mutable state of `VaccumCleaner` (`env` is the shared grid the
agent mutates through cleaning, `metrics` the recorder it emits to). -/
structure Agent where
  env : Environment
  x : ℤ
  y : ℤ
  cleaned : ℕ
  epsilon : ℚ
  battery : Battery
  visited : Finset Pos
  path : List Pos
  strategy : String
  metrics : Metrics
  charger_pos : Pos
deriving DecidableEq

/-- Python `VaccumCleaner.__init__(env, strategy, epsilon)`: starts at (0, 0)
with a default battery, clamps epsilon to a minimum of 1, and points
`charger_pos` at the bottom-right corner. -/
def Agent.init (env : Environment) (strategy : String) (epsilon : ℚ) : Agent :=
  { env := env, x := 0, y := 0, cleaned := 0, epsilon := max 1 epsilon,
    battery := Battery.default, visited := ∅, path := [],
    strategy := strategy, metrics := Metrics.init,
    charger_pos := ((env.size : ℤ) - 1, (env.size : ℤ) - 1) }

/-- Python `VaccumCleaner.a_star` reads the grid, size and epsilon from `self`. -/
def Agent.a_star (s : Agent) (start goal : Pos) : List Pos :=
  aStar s.env.grid s.env.size s.epsilon start goal

/-- Python `VaccumCleaner.clean()`: if the current cell is dirty, clear it,
bump `cleaned` and record a cleaning event; always add the current
position to `visited`. -/
def Agent.clean (s : Agent) : Agent :=
  let s1 :=
    if cellAt s.env.grid s.x s.y = 1 then
      { s with
        env := { s.env with grid := setCell s.env.grid s.x s.y 0 }
        cleaned := s.cleaned + 1
        metrics := s.metrics.record_cleaning s.strategy }
    else s
  { s1 with visited := insert (s1.x, s1.y) s1.visited }

/-- Python `VaccumCleaner._random_step()`, with the result of `random.choice`
over the four directions supplied as the argument `dir`. -/
def Agent.random_step (dir : ℤ × ℤ) (s : Agent) : Agent :=
  let n : Pos := (s.x + dir.1, s.y + dir.2)
  if 0 ≤ n.1 ∧ n.1 < (s.env.size : ℤ) ∧ 0 ≤ n.2 ∧ n.2 < (s.env.size : ℤ) ∧
      cellAt s.env.grid n.1 n.2 ≠ -1 then
    { s with x := n.1, y := n.2, battery := (s.battery.consume none).2 }
  else s

/-- Python `min(cells, key=...)`: the first element attaining the least
key; `none` on the empty list (where Python raises `ValueError`). -/
def minByKey (key : Pos → ℤ) : List Pos → Option Pos
  | [] => none
  | c :: rest =>
    match minByKey key rest with
    | none => some c
    | some m => if key c ≤ key m then some c else some m

/-- Python `VaccumCleaner._astar_step()`: if there is no pending path, plan one
to the nearest dirty cell (when any dirt remains), then pop the first
cell of the pending path, move there and consume battery. -/
def Agent.astar_step (s : Agent) : Agent :=
  let s1 :=
    if s.path = [] then
      match minByKey (fun c => heuristic c (s.x, s.y)) s.env.get_dirty_cells with
      | some nearest => { s with path := s.a_star (s.x, s.y) nearest }
      | none => s
    else s
  match s1.path with
  | [] => s1
  | c :: rest =>
    { s1 with
      x := c.1
      y := c.2
      path := rest
      battery := (s1.battery.consume none).2 }

/-- Python `range(a, b)` over integers. -/
def intRange (a b : ℤ) : List ℤ :=
  (List.range (b - a).toNat).map fun i => a + (i : ℤ)

/-- Stable insertion keeping earlier elements with an equal key first
(matches the stability of Python's `sorted`). -/
def insertByKey (key : Pos → ℤ) (c : Pos) : List Pos → List Pos
  | [] => [c]
  | d :: rest => if key d < key c then d :: insertByKey key c rest else c :: d :: rest

/-- Stable sort by key, as Python's `sorted(nearby, key=...)`. -/
def sortByKey (key : Pos → ℤ) : List Pos → List Pos
  | [] => []
  | c :: rest => insertByKey key c (sortByKey key rest)

/-- Python `VaccumCleaner._get_nearby_dirt(radius)`: dirty in-bounds cells in
the box of the given radius around the agent (generated with `dx` as the
outer loop and `dy` as the inner one), sorted by Manhattan distance from
the agent. -/
def Agent.get_nearby_dirt (s : Agent) (radius : ℤ) : List Pos :=
  let nearby := ((intRange (-radius) (radius + 1)).map fun dx =>
    (intRange (-radius) (radius + 1)).filterMap fun dy =>
      let n : Pos := (s.x + dx, s.y + dy)
      if 0 ≤ n.1 ∧ n.1 < (s.env.size : ℤ) ∧ 0 ≤ n.2 ∧ n.2 < (s.env.size : ℤ) ∧
          cellAt s.env.grid n.1 n.2 = 1 then some n else none).flatten
  sortByKey (fun c => heuristic c (s.x, s.y)) nearby

/-- Python `VaccumCleaner._optimized_step()`: below 30 battery, only retarget
the pending path at the nearest nearby dirt (radius 2), without moving;
otherwise behave exactly like `_astar_step`. -/
def Agent.optimized_step (s : Agent) : Agent :=
  if s.battery.current < 30 then
    match s.get_nearby_dirt 2 with
    | [] => s
    | t :: _ =>
      if s.path = [] ∨ s.path.getLast? ≠ some t then
        { s with path := s.a_star (s.x, s.y) t }
      else s
  else s.astar_step

/-- Python `VaccumCleaner._handle_low_battery()`: at the charger, charge in
place and record a charging event; otherwise make sure the pending path
targets the charger and take one move along it (if the path is empty and
the charger unreachable, stay put). -/
def Agent.handle_low_battery (s : Agent) : Agent :=
  if (s.x, s.y) = s.charger_pos then
    let b := s.battery.charge
    { s with
      battery := b
      metrics := s.metrics.record_step (s.x, s.y) b.current ("charging") s.strategy }
  else
    let s1 :=
      if s.path = [] ∨ s.path.getLast? ≠ some s.charger_pos then
        { s with path := s.a_star (s.x, s.y) s.charger_pos }
      else s
    match s1.path with
    | [] => s1
    | c :: rest =>
      { s1 with
        x := c.1
        y := c.2
        path := rest
        battery := (s1.battery.consume none).2 }

/-- The strategy dispatch of `VaccumCleaner.step` (an unknown strategy
string falls through all branches and does nothing). -/
def Agent.exec_strategy (dir : ℤ × ℤ) (s : Agent) : Agent :=
  if s.strategy = "random" then s.random_step dir
  else if s.strategy = "astar" then s.astar_step
  else if s.strategy = "optimized" then s.optimized_step
  else s

/-- The movement-plus-recording phase of `VaccumCleaner.step`: execute
the strategy, then record the step event with the new position, the
battery level after the move, the action label "move" and the strategy. -/
def Agent.move_phase (dir : ℤ × ℤ) (s : Agent) : Agent :=
  let s1 := s.exec_strategy dir
  { s1 with metrics :=
      s1.metrics.record_step (s1.x, s1.y) s1.battery.current ("move") s1.strategy }

/-- Python `VaccumCleaner.step()`: the low-battery override returns early —
before the step event is recorded and before `clean()` runs; otherwise
the strategy executes, the step event is recorded, and the current cell
is cleaned. -/
def Agent.step (dir : ℤ × ℤ) (s : Agent) : Agent :=
  if s.battery.needs_charging 20 ∧ s.strategy ≠ "random" then s.handle_low_battery
  else (s.move_phase dir).clean

/-! ## Reachability (the notion of "goal unreachable through
non-obstacle cells" of the spec, used to state C4) -/

/-- A cell `a_star` may stand on: in bounds and not an obstacle. -/
def validCell (grid : Grid) (size : ℕ) (p : Pos) : Prop :=
  0 ≤ p.1 ∧ p.1 < (size : ℤ) ∧ 0 ≤ p.2 ∧ p.2 < (size : ℤ) ∧
    cellAt grid p.1 p.2 ≠ -1

instance (grid : Grid) (size : ℕ) (p : Pos) : Decidable (validCell grid size p) :=
  decidable_of_iff
    (0 ≤ p.1 ∧ p.1 < (size : ℤ) ∧ 0 ≤ p.2 ∧ p.2 < (size : ℤ) ∧
      cellAt grid p.1 p.2 ≠ -1) Iff.rfl

/-- One 4-connected move between valid cells. -/
def adjStep (grid : Grid) (size : ℕ) (p q : Pos) : Prop :=
  validCell grid size p ∧ validCell grid size q ∧
    (q.1 - p.1, q.2 - p.2) ∈ [((0 : ℤ), (1 : ℤ)), (0, -1), (1, 0), (-1, 0)]

/-- Predicate: `goal` is reachable from `start` through non-obstacle cells. -/
def reaches (grid : Grid) (size : ℕ) (start goal : Pos) : Prop :=
  Relation.ReflTransGen (adjStep grid size) start goal

/-! ## Concrete instances used by counterexamples and witnesses -/

/-- An obstacle-free 5 × 5 grid (all cells clean). -/
def freeGrid5 : Grid :=
  List.replicate 5 (List.replicate 5 0)

/-- A 3 × 3 environment with a single dirty cell at (1, 1) and the
charger at (2, 2). -/
def lowBatEnv : Environment :=
  ⟨3, [[0, 0, 0], [0, 1, 0], [0, 0, 2]]⟩

/-- An agent standing on the dirty cell (1, 1) of `lowBatEnv` with a low
battery (15 ≤ 20) and a pending path to the charger: its next `step()`
takes the navigate-to-charger branch. -/
def lowBatAgent : Agent :=
  { env := lowBatEnv, x := 1, y := 1, cleaned := 0, epsilon := 1,
    battery := ⟨100, 15, 1, 5, 0, 0⟩, visited := ∅, path := [(2, 2)],
    strategy := "astar", metrics := Metrics.init, charger_pos := (2, 2) }

/-- A fresh agent on `lowBatEnv` with a full battery and the `astar`
strategy: its next `step()` takes the normal move-and-clean path. -/
def freshAgent : Agent :=
  Agent.init lowBatEnv ("astar") 1

/-- An agent on `lowBatEnv` with the `optimized` strategy and a battery
at 25: above the charging threshold 20 but below the conservation
threshold 30. -/
def conservAgent : Agent :=
  { env := lowBatEnv, x := 1, y := 1, cleaned := 0, epsilon := 1,
    battery := ⟨100, 25, 1, 5, 0, 0⟩, visited := ∅, path := [],
    strategy := "optimized", metrics := Metrics.init, charger_pos := (2, 2) }

/-- A 3 × 3 grid whose cell (2, 2) is walled off by obstacles at (1, 2)
and (2, 1). -/
def walledGrid3 : Grid :=
  [[0, 0, 0], [0, 0, -1], [0, -1, 0]]

lemma Battery.applyOp_capacity (b : Battery) (op : BatteryOp) :
    (b.applyOp op).capacity = b.capacity := by
  cases op <;> simp [Battery.applyOp, Battery.consume, Battery.charge]

lemma Battery.applyOp_rates (b : Battery) (op : BatteryOp) :
    (b.applyOp op).drain_rate = b.drain_rate ∧
      (b.applyOp op).charge_rate = b.charge_rate := by
  cases op <;> simp [Battery.applyOp, Battery.consume, Battery.charge]

/-- Preservation of the battery invariant by one call. -/
lemma Battery.applyOp_invariant (b : Battery) (op : BatteryOp)
    (hd : 0 ≤ b.drain_rate) (hc : 0 ≤ b.charge_rate)
    (ha : ∀ a : ℤ, op = .consume (some a) → 0 ≤ a)
    (h0 : 0 ≤ b.current) (h1 : b.current ≤ b.capacity) :
    0 ≤ (b.applyOp op).current ∧ (b.applyOp op).current ≤ b.capacity := by
  cases op with
  | consume a =>
    cases a with
    | none =>
      simp only [Battery.applyOp, Battery.consume, Option.getD_none]
      constructor
      · exact le_max_left 0 _
      · exact max_le (le_trans h0 h1) (by omega)
    | some a =>
      have haa : 0 ≤ a := ha a rfl
      simp only [Battery.applyOp, Battery.consume, Option.getD_some]
      constructor
      · exact le_max_left 0 _
      · exact max_le (le_trans h0 h1) (by omega)
  | charge =>
    simp only [Battery.applyOp, Battery.charge]
    constructor
    · have : (0 : ℤ) ≤ b.current + b.charge_rate := by omega
      exact le_min (le_trans h0 h1) this
    · exact min_le_left _ _

/-- Invariant for whole call sequences, starting from any state that
satisfies it. -/
lemma Battery.applyOps_invariant (ops : List BatteryOp) (b : Battery)
    (hd : 0 ≤ b.drain_rate) (hc : 0 ≤ b.charge_rate)
    (ha : opsNonneg ops)
    (h0 : 0 ≤ b.current) (h1 : b.current ≤ b.capacity) :
    0 ≤ (b.applyOps ops).current ∧
      (b.applyOps ops).current ≤ (b.applyOps ops).capacity := by
  induction ops generalizing b with
  | nil => exact ⟨h0, by simpa [Battery.applyOps] using h1⟩
  | cons op rest ih =>
    have hstep := Battery.applyOp_invariant b op hd hc
      (fun a hopa => ha a (by simp [hopa])) h0 h1
    have hcap := Battery.applyOp_capacity b op
    have hrates := Battery.applyOp_rates b op
    have := ih (b.applyOp op) (by rw [hrates.1]; exact hd)
      (by rw [hrates.2]; exact hc)
      (fun a hmem => ha a (List.mem_cons_of_mem _ hmem))
      hstep.1 (by rw [hcap]; exact hstep.2)
    simpa [Battery.applyOps] using this

/-- C2: for every battery created with positive capacity and every finite
sequence of `consume`/`charge` calls with non-negative amounts (the
per-call amounts and the construction-time `drain_rate`/`charge_rate`),
the invariant `0 ≤ current ≤ capacity` holds after every call. -/
theorem battery_invariant_holds (capacity drain_rate charge_rate : ℤ)
    (ops : List BatteryOp)
    (hcap : 0 < capacity) (hd : 0 ≤ drain_rate) (hc : 0 ≤ charge_rate)
    (ha : opsNonneg ops) :
    0 ≤ ((Battery.init capacity drain_rate charge_rate).applyOps ops).current ∧
      ((Battery.init capacity drain_rate charge_rate).applyOps ops).current ≤
        ((Battery.init capacity drain_rate charge_rate).applyOps ops).capacity := by
  exact Battery.applyOps_invariant ops _ hd hc ha (le_of_lt hcap) (le_refl _)

/-- Witness for C2 at a concrete battery and call sequence. -/
theorem battery_invariant_holds_witness :
    (0 : ℤ) < 10 ∧ (0 : ℤ) ≤ 1 ∧ (0 : ℤ) ≤ 5 ∧
      opsNonneg [.consume (some 7), .charge, .consume none] ∧
      0 ≤ ((Battery.init 10 1 5).applyOps
            [.consume (some 7), .charge, .consume none]).current ∧
        ((Battery.init 10 1 5).applyOps
            [.consume (some 7), .charge, .consume none]).current ≤
          ((Battery.init 10 1 5).applyOps
            [.consume (some 7), .charge, .consume none]).capacity := by
  have hops : opsNonneg [.consume (some 7), .charge, .consume none] := by
    intro a hmem
    simp only [List.mem_cons, List.not_mem_nil, or_false] at hmem
    rcases hmem with h | h | h
    · injection h with h1; injection h1 with h2; omega
    · simp at h
    · simp at h
  refine ⟨by decide, by decide, by decide, hops, ?_⟩
  exact battery_invariant_holds 10 1 5 [.consume (some 7), .charge, .consume none]
    (by decide) (by decide) (by decide) hops

lemma Battery.total_consumed_replicate (b : Battery) (a : ℤ) (N : ℕ) :
    (b.applyOps (List.replicate N (.consume (some a)))).total_consumed =
      b.total_consumed + N * a := by
  induction N generalizing b with
  | zero => simp [Battery.applyOps]
  | succ n ih =>
    have hrw : (b.applyOp (.consume (some a))).total_consumed = b.total_consumed + a := by
      simp [Battery.applyOp, Battery.consume]
    calc (b.applyOps (List.replicate (n + 1) (.consume (some a)))).total_consumed
        = ((b.applyOp (.consume (some a))).applyOps
            (List.replicate n (.consume (some a)))).total_consumed := by
          simp [Battery.applyOps, List.replicate_succ]
      _ = (b.applyOp (.consume (some a))).total_consumed + n * a := ih _
      _ = b.total_consumed + (n + 1 : ℕ) * a := by rw [hrw]; push_cast; ring

/-- C5: `charge()` sets `current` to `min(capacity, current + charge_rate)`
and increments `charge_cycles` by exactly 1 iff the level was strictly
below capacity before the call and equals capacity after it; from
`current = capacity - 1` with `charge_rate = 5` one call increments the
cycle count and a further call while full leaves it unchanged. -/
theorem charge_semantics (b : Battery) :
    (b.charge).current = min b.capacity (b.current + b.charge_rate) ∧
    ((b.charge).charge_cycles = b.charge_cycles + 1 ↔
      b.current < b.capacity ∧ (b.charge).current = b.capacity) ∧
    ((b.charge).charge_cycles = b.charge_cycles ↔
      ¬ (b.current < b.capacity ∧ (b.charge).current = b.capacity)) ∧
    (b.current = b.capacity - 1 → b.charge_rate = 5 →
      (b.charge).current = b.capacity ∧
      (b.charge).charge_cycles = b.charge_cycles + 1 ∧
      (b.charge.charge).charge_cycles = b.charge_cycles + 1) := by
  have hcur : (b.charge).current = min b.capacity (b.current + b.charge_rate) := rfl
  have hcyc : (b.charge).charge_cycles =
      if b.current < b.capacity ∧
          min b.capacity (b.current + b.charge_rate) = b.capacity
        then b.charge_cycles + 1 else b.charge_cycles := rfl
  refine ⟨hcur, ?_, ?_, ?_⟩
  · by_cases h : b.current < b.capacity ∧
        min b.capacity (b.current + b.charge_rate) = b.capacity
    · rw [hcyc, if_pos h, hcur]
      exact iff_of_true rfl h
    · rw [hcyc, if_neg h, hcur]
      exact iff_of_false (by omega) h
  · by_cases h : b.current < b.capacity ∧
        min b.capacity (b.current + b.charge_rate) = b.capacity
    · rw [hcyc, if_pos h, hcur]
      exact iff_of_false (by omega) (not_not_intro h)
    · rw [hcyc, if_neg h, hcur]
      exact iff_of_true rfl h
  · intro hc hrate
    have hmin : min b.capacity (b.current + b.charge_rate) = b.capacity := by
      rw [hc, hrate]; omega
    have hlt : b.current < b.capacity := by omega
    have h1 : (b.charge).current = b.capacity := by rw [hcur, hmin]
    have h2 : (b.charge).charge_cycles = b.charge_cycles + 1 := by
      rw [hcyc, if_pos ⟨hlt, hmin⟩]
    refine ⟨h1, h2, ?_⟩
    have hcap : (b.charge).capacity = b.capacity := rfl
    have hcyc2 : (b.charge.charge).charge_cycles =
        if (b.charge).current < (b.charge).capacity ∧
            min (b.charge).capacity ((b.charge).current + (b.charge).charge_rate) =
              (b.charge).capacity
          then (b.charge).charge_cycles + 1 else (b.charge).charge_cycles := rfl
    rw [hcyc2, if_neg ?hne, h2]
    case hne =>
      rintro ⟨hlt2, -⟩
      rw [h1, hcap] at hlt2
      exact lt_irrefl _ hlt2

/-- Witness for C5 at a concrete battery with `current = capacity - 1`
and `charge_rate = 5`. -/
theorem charge_semantics_witness :
    ((⟨100, 99, 1, 5, 0, 0⟩ : Battery).charge).current = 100 ∧
      ((⟨100, 99, 1, 5, 0, 0⟩ : Battery).charge).charge_cycles = 0 + 1 ∧
      ((⟨100, 99, 1, 5, 0, 0⟩ : Battery).charge.charge).charge_cycles = 0 + 1 :=
  (charge_semantics ⟨100, 99, 1, 5, 0, 0⟩).2.2.2 (by decide) (by decide)

/-- C6: `consume(amount)` floors `current` at 0, accumulates the full
requested amount into `total_consumed` regardless of flooring, and
returns whether `current > 0` after the update; `total_consumed` after
`N` consumes of amount `a` on a fresh battery equals `N * a`. -/
theorem consume_semantics (b : Battery) (a cap dr cr : ℤ) (N : ℕ) :
    (b.consume (some a)).2.current = max 0 (b.current - a) ∧
    (b.consume (some a)).2.total_consumed = b.total_consumed + a ∧
    ((b.consume (some a)).1 = true ↔ 0 < (b.consume (some a)).2.current) ∧
    ((Battery.init cap dr cr).applyOps
        (List.replicate N (.consume (some a)))).total_consumed = N * a := by
  refine ⟨rfl, rfl, ?_, ?_⟩
  · simp [Battery.consume]
  · have := Battery.total_consumed_replicate (Battery.init cap dr cr) a N
    simpa [Battery.init] using this

/-! ## C7: the charger cell -/

lemma getD_set_self {α : Type} (l : List α) (i : ℕ) (v d : α) (h : i < l.length) :
    (l.set i v).getD i d = v := by
  rw [List.getD_eq_getElem _ _ (by simpa using h)]
  rw [List.getElem_set_self]

lemma getD_set_ne {α : Type} (l : List α) (i j : ℕ) (v d : α) (h : i ≠ j) :
    (l.set i v).getD j d = l.getD j d := by
  rw [List.getD_eq_getD_get?, List.getD_eq_getD_get?, List.get?_eq_getElem?,
    List.get?_eq_getElem?, List.getElem?_set_ne h]

lemma getD_mem {α : Type} (l : List α) (i : ℕ) (d : α) (h : i < l.length) :
    l.getD i d ∈ l := by
  rw [List.getD_eq_getElem _ _ h]
  exact List.getElem_mem h

lemma setCellN_length (g : Grid) (x y : ℕ) (v : ℤ) :
    (setCellN g x y v).length = g.length :=
  List.length_set g y ((g.getD y []).set x v)

lemma setCellN_rowlen (g : Grid) (x y : ℕ) (v : ℤ) (L : ℕ)
    (hrows : ∀ row ∈ g, row.length = L) (hy : y < g.length) :
    ∀ row ∈ setCellN g x y v, row.length = L := by
  intro row hrow
  rcases List.mem_or_eq_of_mem_set hrow with h1 | h1
  · exact hrows row h1
  · subst h1
    rw [List.length_set]
    exact hrows _ (getD_mem g y [] hy)

lemma cellAt_natCast (g : Grid) (a b : ℕ) :
    cellAt g (a : ℤ) (b : ℤ) = (g.getD b []).getD a 0 := by
  simp [cellAt]

/-- Reading a square grid after one write: the written value at the
written spot, the old value elsewhere. -/
lemma cellAt_setCellN (g : Grid) (L i j a b : ℕ) (v : ℤ)
    (hlen : g.length = L) (hrows : ∀ row ∈ g, row.length = L)
    (hi : i < L) (hj : j < L) (ha : a < L) (hb : b < L) :
    ((setCellN g i j v).getD b []).getD a 0 =
      if a = i ∧ b = j then v else (g.getD b []).getD a 0 := by
  have hrowlen : (g.getD j []).length = L :=
    hrows _ (getD_mem g j [] (by omega))
  by_cases hbj : b = j
  · subst hbj
    have houter : (setCellN g i b v).getD b [] = (g.getD b []).set i v :=
      getD_set_self g b ((g.getD b []).set i v) [] (by omega)
    rw [houter]
    by_cases hai : a = i
    · subst hai
      rw [getD_set_self _ _ _ _ (by omega)]
      simp
    · rw [getD_set_ne _ _ _ _ _ (fun hc => hai hc.symm)]
      simp [hai]
  · have houter : (setCellN g i j v).getD b [] = g.getD b [] :=
      getD_set_ne g j b ((g.getD j []).set i v) [] (fun hc => hbj hc.symm)
    rw [houter]
    simp [hbj]

lemma base_grid_length (size : ℕ) (dirt : ℕ → ℕ → Bool) :
    ((List.range size).map fun y =>
      (List.range size).map fun x => if dirt y x then (1 : ℤ) else 0).length = size := by
  simp

lemma base_grid_rowlen (size : ℕ) (dirt : ℕ → ℕ → Bool) :
    ∀ row ∈ ((List.range size).map fun y =>
      (List.range size).map fun x => if dirt y x then (1 : ℤ) else 0),
      row.length = size := by
  intro row hrow
  rcases List.mem_map.1 hrow with ⟨y, -, rfl⟩
  simp

lemma base_grid_cell (size : ℕ) (dirt : ℕ → ℕ → Bool) (a b : ℕ)
    (ha : a < size) (hb : b < size) :
    ((((List.range size).map fun y =>
        (List.range size).map fun x => if dirt y x then (1 : ℤ) else 0)).getD b []).getD a 0 =
      if dirt b a then 1 else 0 := by
  have h1 : (((List.range size).map fun y =>
      (List.range size).map fun x => if dirt y x then (1 : ℤ) else 0)).getD b [] =
        (List.range size).map fun x => if dirt b x then (1 : ℤ) else 0 := by
    rw [List.getD_eq_getElem _ _ (by simpa using hb), List.getElem_map,
      List.getElem_range]
  rw [h1, List.getD_eq_getElem _ _ (by simpa using ha), List.getElem_map,
    List.getElem_range]

/-- Cellwise description of the freshly constructed environment: the
writes `[0][0] = 0`, `[size-1][size-1] = 2`, `[2][2] = -1` happen in
that order, so the obstacle write wins at (2, 2). -/
lemma envInit_cell (size : ℕ) (dirt : ℕ → ℕ → Bool) (h3 : 3 ≤ size)
    (a b : ℕ) (ha : a < size) (hb : b < size) :
    cellAt (Environment.init size dirt).grid (a : ℤ) (b : ℤ) =
      if a = 2 ∧ b = 2 then -1
      else if a = size - 1 ∧ b = size - 1 then 2
      else if a = 0 ∧ b = 0 then 0
      else if dirt b a then 1 else 0 := by
  rw [cellAt_natCast]
  show ((setCellN (setCellN (setCellN _ 0 0 0) (size - 1) (size - 1) 2) 2 2 (-1)).getD
      b []).getD a 0 = _
  have hlen0 := base_grid_length size dirt
  have hrows0 := base_grid_rowlen size dirt
  have hlen1 : (setCellN ((List.range size).map fun y =>
      (List.range size).map fun x => if dirt y x then (1 : ℤ) else 0) 0 0 0).length = size := by
    rw [setCellN_length, hlen0]
  have hrows1 := setCellN_rowlen _ 0 0 0 size hrows0 (by omega)
  have hlen2 : (setCellN (setCellN ((List.range size).map fun y =>
      (List.range size).map fun x => if dirt y x then (1 : ℤ) else 0) 0 0 0)
        (size - 1) (size - 1) 2).length = size := by
    rw [setCellN_length, hlen1]
  have hrows2 := setCellN_rowlen _ (size - 1) (size - 1) 2 size hrows1 (by omega)
  rw [cellAt_setCellN _ size 2 2 a b (-1) hlen2 hrows2 (by omega) (by omega) ha hb]
  rw [cellAt_setCellN _ size (size - 1) (size - 1) a b 2 hlen1 hrows1
    (by omega) (by omega) ha hb]
  rw [cellAt_setCellN _ size 0 0 a b 0 hlen0 hrows0 (by omega) (by omega) ha hb]
  rw [base_grid_cell size dirt a b ha hb]

/-- The single-charger description of a fresh environment, for sizes
other than 3. -/
lemma envInit_chargerCells (size : ℕ) (dirt : ℕ → ℕ → Bool) (h4 : 4 ≤ size) :
    chargerCells (Environment.init size dirt) =
      {((size : ℤ) - 1, (size : ℤ) - 1)} := by
  have hsz : (Environment.init size dirt).size = size := rfl
  apply Finset.ext
  rintro ⟨px, py⟩
  simp only [chargerCells, hsz, gridPositions, Finset.mem_filter, Finset.mem_product,
    Finset.mem_Icc, Finset.mem_singleton, Prod.mk.injEq]
  constructor
  · rintro ⟨⟨⟨hx0, hx1⟩, hy0, hy1⟩, hcell⟩
    have hpx : px = ((px.toNat : ℕ) : ℤ) := (Int.toNat_of_nonneg hx0).symm
    have hpy : py = ((py.toNat : ℕ) : ℤ) := (Int.toNat_of_nonneg hy0).symm
    rw [hpx, hpy, envInit_cell size dirt (by omega) px.toNat py.toNat
      (by omega) (by omega)] at hcell
    by_cases hA : px.toNat = 2 ∧ py.toNat = 2
    · rw [if_pos hA] at hcell
      exact absurd hcell (by decide)
    · rw [if_neg hA] at hcell
      by_cases hB : px.toNat = size - 1 ∧ py.toNat = size - 1
      · omega
      · rw [if_neg hB] at hcell
        by_cases hC : px.toNat = 0 ∧ py.toNat = 0
        · rw [if_pos hC] at hcell
          exact absurd hcell (by decide)
        · rw [if_neg hC] at hcell
          by_cases hD : dirt py.toNat px.toNat
          · rw [if_pos hD] at hcell
            exact absurd hcell (by decide)
          · rw [if_neg hD] at hcell
            exact absurd hcell (by decide)
  · rintro ⟨hx, hy⟩
    subst hx
    subst hy
    have hpx : (size : ℤ) - 1 = ((size - 1 : ℕ) : ℤ) := by omega
    refine ⟨⟨⟨by omega, by omega⟩, by omega, by omega⟩, ?_⟩
    rw [hpx, envInit_cell size dirt (by omega) (size - 1) (size - 1)
      (by omega) (by omega)]
    rw [if_neg (by omega), if_pos ⟨rfl, rfl⟩]

/-- Cleaning touches at most the agent's current cell, and only turns a
dirty cell (value 1) into a clean one (value 0): the charger set is
untouched. -/
lemma clean_preserves_chargers (s : Agent) (hwf : gridWF s.env)
    (hx0 : 0 ≤ s.x) (hx1 : s.x < (s.env.size : ℤ))
    (hy0 : 0 ≤ s.y) (hy1 : s.y < (s.env.size : ℤ)) :
    chargerCells (s.clean).env = chargerCells s.env ∧
      (s.clean).env.size = s.env.size := by
  by_cases hdirty : cellAt s.env.grid s.x s.y = 1
  · have henv : (s.clean).env =
        { s.env with grid := setCell s.env.grid s.x s.y 0 } := by
      unfold Agent.clean
      rw [if_pos hdirty]
    rw [henv]
    refine ⟨?_, rfl⟩
    apply Finset.ext
    rintro ⟨px, py⟩
    simp only [chargerCells, gridPositions, Finset.mem_filter, Finset.mem_product,
      Finset.mem_Icc]
    refine and_congr_right fun hmem => ?_
    obtain ⟨⟨hx0m, hx1m⟩, hy0m, hy1m⟩ := hmem
    have hpx : px = ((px.toNat : ℕ) : ℤ) := (Int.toNat_of_nonneg hx0m).symm
    have hpy : py = ((py.toNat : ℕ) : ℤ) := (Int.toNat_of_nonneg hy0m).symm
    have hxx : s.x = ((s.x.toNat : ℕ) : ℤ) := (Int.toNat_of_nonneg hx0).symm
    have hyy : s.y = ((s.y.toNat : ℕ) : ℤ) := (Int.toNat_of_nonneg hy0).symm
    show cellAt (setCell s.env.grid s.x s.y 0) px py = 2 ↔ cellAt s.env.grid px py = 2
    rw [hpx, hpy, cellAt_natCast, cellAt_natCast, setCell]
    rw [cellAt_setCellN s.env.grid s.env.size s.x.toNat s.y.toNat px.toNat py.toNat 0
      hwf.1 hwf.2 (by omega) (by omega) (by omega) (by omega)]
    by_cases heq : px.toNat = s.x.toNat ∧ py.toNat = s.y.toNat
    · rw [if_pos heq]
      have hsame : cellAt s.env.grid s.x s.y =
          ((s.env.grid.getD py.toNat []).getD px.toNat 0) := by
        rw [hxx, hyy, cellAt_natCast, heq.1, heq.2]
      rw [← hsame, hdirty]
      simp
    · rw [if_neg heq]
  · have hone : (s.clean).env = s.env := by
      unfold Agent.clean
      rw [if_neg hdirty]
    rw [hone]
    exact ⟨rfl, rfl⟩

/-- C7 counterexample: size 3 is constructible (the Python constructor
runs without an IndexError exactly when `size ≥ 3`), yet the example
obstacle written at (2, 2) after the charger overwrites it, so the
freshly built 3 × 3 environment has no charger cell at all and its
bottom-right corner holds the obstacle marker. -/
theorem env3_has_no_charger :
    3 ≤ 3 ∧
      chargerCells (Environment.init 3 fun _ _ => false) = ∅ ∧
      cellAt (Environment.init 3 fun _ _ => false).grid 2 2 = -1 := by
  decide

/-- C7 amended: for every constructible size other than 3 (that is,
`size ≥ 4`) and every dirt outcome, the fresh environment has exactly
one charger cell, at the bottom-right corner, and an agent's cleaning
action (the only mutation of the grid) preserves the charger set and
the size, keeping this true for the lifetime of the environment. -/
theorem charger_invariant (size : ℕ) (dirt : ℕ → ℕ → Bool) (s : Agent)
    (h4 : 4 ≤ size) (hwf : gridWF s.env)
    (hx0 : 0 ≤ s.x) (hx1 : s.x < (s.env.size : ℤ))
    (hy0 : 0 ≤ s.y) (hy1 : s.y < (s.env.size : ℤ)) :
    chargerCells (Environment.init size dirt) =
        {((size : ℤ) - 1, (size : ℤ) - 1)} ∧
      (Environment.init size dirt).size = size ∧
      chargerCells (s.clean).env = chargerCells s.env ∧
      (s.clean).env.size = s.env.size := by
  obtain ⟨h1, h2⟩ := clean_preserves_chargers s hwf hx0 hx1 hy0 hy1
  exact ⟨envInit_chargerCells size dirt h4, rfl, h1, h2⟩

/-- Witness for C7 at size 5 with every cell initially dirty, and the
agent `lowBatAgent` standing on the dirty cell (1, 1). -/
theorem charger_invariant_witness :
    (4 ≤ 5 ∧ gridWF lowBatAgent.env ∧ (0 : ℤ) ≤ lowBatAgent.x ∧
        lowBatAgent.x < (lowBatAgent.env.size : ℤ) ∧ (0 : ℤ) ≤ lowBatAgent.y ∧
        lowBatAgent.y < (lowBatAgent.env.size : ℤ)) ∧
      chargerCells (Environment.init 5 fun _ _ => true) = {((4 : ℤ), (4 : ℤ))} ∧
      chargerCells (lowBatAgent.clean).env = chargerCells lowBatAgent.env := by
  refine ⟨⟨by decide, by decide, by decide, by decide, by decide, by decide⟩, ?_, ?_⟩
  · have h := (charger_invariant 5 (fun _ _ => true) lowBatAgent (by decide)
      (by decide) (by decide) (by decide) (by decide) (by decide)).1
    simpa using h
  · exact (charger_invariant 5 (fun _ _ => true) lowBatAgent (by decide)
      (by decide) (by decide) (by decide) (by decide) (by decide)).2.2.1

/-! ## C8: construction of battery and agent -/

/-- C8 counterexample: `Battery.__init__` performs no validation, so a
battery constructed with non-positive capacity is not rejected with a
configuration error (a rejected construction would produce no battery
state): it silently yields a battery whose `capacity` and `current` are
the non-positive value. -/
theorem battery_init_accepts_nonpositive :
    Battery.init (-5) 1 5 = ⟨-5, -5, 1, 5, 0, 0⟩ ∧
      (Battery.init (-5) 1 5).capacity ≤ 0 := by
  decide

/-- C8 amended: battery construction accepts any capacity without
validation (and sets `current = capacity`), while agent construction
clamps `epsilon` to a minimum of 1 rather than rejecting it, so the
stored epsilon is always at least 1. -/
theorem construction_validation (capacity dr cr : ℤ) (env : Environment)
    (strat : String) (eps : ℚ) :
    (Battery.init capacity dr cr).capacity = capacity ∧
    (Battery.init capacity dr cr).current = capacity ∧
    1 ≤ (Agent.init env strat eps).epsilon ∧
    (eps < 1 → (Agent.init env strat eps).epsilon = 1) ∧
    (1 ≤ eps → (Agent.init env strat eps).epsilon = eps) := by
  refine ⟨rfl, rfl, le_max_left 1 eps, fun h => ?_, fun h => ?_⟩
  · exact max_eq_left (le_of_lt h)
  · exact max_eq_right h

/-- Witness for C8: `epsilon = 0 < 1` is clamped to 1, and a battery
built with capacity −5 comes back with `current = -5`. -/
theorem construction_validation_witness :
    ((0 : ℚ) < 1) ∧ (Battery.init (-5) 1 5).current = -5 ∧
      (Agent.init lowBatEnv ("astar") 0).epsilon = 1 :=
  ⟨by decide, (construction_validation (-5) 1 5 lowBatEnv ("astar") 0).2.1,
    (construction_validation (-5) 1 5 lowBatEnv ("astar") 0).2.2.2.1 (by decide)⟩

/-! ## Frame lemmas: what the movement phase never touches -/

lemma random_step_frame (dir : ℤ × ℤ) (s : Agent) :
    (s.random_step dir).env = s.env ∧ (s.random_step dir).metrics = s.metrics ∧
    (s.random_step dir).strategy = s.strategy ∧
    (s.random_step dir).cleaned = s.cleaned ∧
    (s.random_step dir).visited = s.visited := by
  simp only [Agent.random_step]
  split <;> simp

lemma astar_step_frame (s : Agent) :
    (s.astar_step).env = s.env ∧ (s.astar_step).metrics = s.metrics ∧
    (s.astar_step).strategy = s.strategy ∧
    (s.astar_step).cleaned = s.cleaned ∧
    (s.astar_step).visited = s.visited := by
  simp only [Agent.astar_step]
  repeat' split
  all_goals simp

lemma optimized_step_frame (s : Agent) :
    (s.optimized_step).env = s.env ∧ (s.optimized_step).metrics = s.metrics ∧
    (s.optimized_step).strategy = s.strategy ∧
    (s.optimized_step).cleaned = s.cleaned ∧
    (s.optimized_step).visited = s.visited := by
  simp only [Agent.optimized_step]
  split
  · split
    · simp
    · split <;> simp
  · exact astar_step_frame s

lemma exec_strategy_frame (dir : ℤ × ℤ) (s : Agent) :
    (s.exec_strategy dir).env = s.env ∧ (s.exec_strategy dir).metrics = s.metrics ∧
    (s.exec_strategy dir).strategy = s.strategy ∧
    (s.exec_strategy dir).cleaned = s.cleaned ∧
    (s.exec_strategy dir).visited = s.visited := by
  simp only [Agent.exec_strategy]
  split
  · exact random_step_frame dir s
  · split
    · exact astar_step_frame s
    · split
      · exact optimized_step_frame s
      · simp

/-! ## C1: the cleaning phase of a step -/

attribute [local semireducible] Rat.add Rat.mul

lemma clean_dirty_spec (s : Agent) (h : cellAt s.env.grid s.x s.y = 1) :
    (s.clean).cleaned = s.cleaned + 1 ∧
    (s.clean).env.grid = setCell s.env.grid s.x s.y 0 ∧
    (s.clean).env.size = s.env.size ∧
    (s.clean).visited = insert (s.x, s.y) s.visited := by
  simp only [Agent.clean, if_pos h]
  simp

lemma clean_not_dirty_spec (s : Agent) (h : cellAt s.env.grid s.x s.y ≠ 1) :
    (s.clean).cleaned = s.cleaned ∧
    (s.clean).env = s.env ∧
    (s.clean).visited = insert (s.x, s.y) s.visited := by
  simp only [Agent.clean, if_neg h]
  simp

lemma step_not_lowbat (s : Agent) (dir : ℤ × ℤ)
    (h : ¬ (s.battery.needs_charging 20 = true ∧ s.strategy ≠ "random")) :
    s.step dir = (s.move_phase dir).clean := by
  unfold Agent.step
  rw [if_neg h]

lemma move_phase_frame (dir : ℤ × ℤ) (s : Agent) :
    (s.move_phase dir).env = s.env ∧
    (s.move_phase dir).cleaned = s.cleaned ∧
    (s.move_phase dir).visited = s.visited ∧
    (s.move_phase dir).strategy = s.strategy := by
  obtain ⟨h1, h2, h3, h4, h5⟩ := exec_strategy_frame dir s
  simp only [Agent.move_phase]
  exact ⟨h1, h4, h5, h3⟩

lemma cellAt_eq_natCast (g : Grid) (x y : ℤ) :
    cellAt g x y = cellAt g ((x.toNat : ℕ) : ℤ) ((y.toNat : ℕ) : ℤ) := by
  unfold cellAt
  simp only [Int.toNat_natCast]

lemma cellAt_setCell_self (g : Grid) (L : ℕ) (x y : ℤ) (v : ℤ)
    (hlen : g.length = L) (hrows : ∀ row ∈ g, row.length = L)
    (hx0 : 0 ≤ x) (hx1 : x < (L : ℤ)) (hy0 : 0 ≤ y) (hy1 : y < (L : ℤ)) :
    cellAt (setCell g x y v) x y = v := by
  rw [cellAt_eq_natCast (setCell g x y v) x y, setCell, cellAt_natCast,
    cellAt_setCellN g L x.toNat y.toNat x.toNat y.toNat v hlen hrows
      (by omega) (by omega) (by omega) (by omega),
    if_pos ⟨rfl, rfl⟩]

/-- C1 counterexample: on `lowBatAgent` (strategy `astar`, battery 15,
standing on the dirty cell (1, 1), away from the charger) the step takes
the low-battery navigate-to-charger branch, which returns before
`clean()` runs: the cell stays dirty, `cleaned` stays 0, and the visited
set stays empty — no position is ever added, contradicting the claim
that every step (including the low-battery branches) cleans and records
the current cell. -/
theorem step_lowbat_skips_cleaning :
    cellAt lowBatAgent.env.grid 1 1 = 1 ∧
      lowBatAgent.battery.needs_charging 20 = true ∧
      (lowBatAgent.step (0, 1)).cleaned = 0 ∧
      cellAt (lowBatAgent.step (0, 1)).env.grid 1 1 = 1 ∧
      (lowBatAgent.step (0, 1)).visited = ∅ := by
  decide

/-- C1 amended: in every step in which the low-battery override does not
fire (so for the Random strategy always, and otherwise whenever the
battery is above the charging threshold), after the movement phase the
agent cleans its current cell — a dirty cell becomes clean and `cleaned`
increments by 1, any other cell and the counter are untouched — and the
current position is added to the visited set regardless of dirt status;
in the low-battery branches no cleaning happens and the visited set is
unchanged (see the counterexample). -/
theorem step_cleans_after_move (s : Agent) (dir : ℤ × ℤ)
    (hlow : ¬ (s.battery.needs_charging 20 = true ∧ s.strategy ≠ "random"))
    (hwf : gridWF s.env)
    (hx0 : 0 ≤ (s.move_phase dir).x) (hx1 : (s.move_phase dir).x < (s.env.size : ℤ))
    (hy0 : 0 ≤ (s.move_phase dir).y) (hy1 : (s.move_phase dir).y < (s.env.size : ℤ)) :
    (s.step dir).visited =
        insert ((s.move_phase dir).x, (s.move_phase dir).y) s.visited ∧
    (cellAt s.env.grid (s.move_phase dir).x (s.move_phase dir).y = 1 →
      (s.step dir).cleaned = s.cleaned + 1 ∧
      cellAt (s.step dir).env.grid (s.move_phase dir).x (s.move_phase dir).y = 0) ∧
    (cellAt s.env.grid (s.move_phase dir).x (s.move_phase dir).y ≠ 1 →
      (s.step dir).cleaned = s.cleaned ∧
      (s.step dir).env = s.env) := by
  obtain ⟨henv, hcleaned, hvis, -⟩ := move_phase_frame dir s
  rw [step_not_lowbat s dir hlow]
  set m := s.move_phase dir with hm
  refine ⟨?_, fun hdirty => ?_, fun hnot => ?_⟩
  · by_cases hdirty : cellAt m.env.grid m.x m.y = 1
    · rw [(clean_dirty_spec m hdirty).2.2.2, hvis]
    · rw [(clean_not_dirty_spec m hdirty).2.2, hvis]
  · have hdm : cellAt m.env.grid m.x m.y = 1 := by rw [henv]; exact hdirty
    obtain ⟨hc, hg, hsz, -⟩ := clean_dirty_spec m hdm
    refine ⟨by rw [hc, hcleaned], ?_⟩
    rw [hg, henv]
    exact cellAt_setCell_self s.env.grid s.env.size m.x m.y 0 hwf.1 hwf.2
      hx0 hx1 hy0 hy1
  · have hdm : cellAt m.env.grid m.x m.y ≠ 1 := by rw [henv]; exact hnot
    obtain ⟨hc, he, -⟩ := clean_not_dirty_spec m hdm
    exact ⟨by rw [hc, hcleaned], by rw [he, henv]⟩

/-- Witness for C1 on `freshAgent` (full battery, `astar` strategy):
its step moves to (0, 1) of `lowBatEnv`, a clean cell, which is then
added to the visited set. -/
theorem step_cleans_after_move_witness :
    (¬ (freshAgent.battery.needs_charging 20 = true ∧
          freshAgent.strategy ≠ "random") ∧
        gridWF freshAgent.env ∧
        (0 : ℤ) ≤ (freshAgent.move_phase (0, 1)).x ∧
        (freshAgent.move_phase (0, 1)).x < (freshAgent.env.size : ℤ) ∧
        (0 : ℤ) ≤ (freshAgent.move_phase (0, 1)).y ∧
        (freshAgent.move_phase (0, 1)).y < (freshAgent.env.size : ℤ)) ∧
      (freshAgent.step (0, 1)).visited =
        insert ((freshAgent.move_phase (0, 1)).x, (freshAgent.move_phase (0, 1)).y)
          freshAgent.visited := by
  refine ⟨⟨by decide, by decide, by decide, by decide, by decide, by decide⟩, ?_⟩
  exact (step_cleans_after_move freshAgent (0, 1) (by decide) (by decide)
    (by decide) (by decide) (by decide) (by decide)).1

/-! ## C9: step events -/

lemma clean_metrics_decisions (s : Agent) :
    (s.clean).metrics.decisions_made = s.metrics.decisions_made ∧
      (s.clean).metrics.steps_taken = s.metrics.steps_taken := by
  simp only [Agent.clean]
  split <;> simp [Metrics.record_cleaning]

lemma step_lowbat (s : Agent) (dir : ℤ × ℤ)
    (h : s.battery.needs_charging 20 = true ∧ s.strategy ≠ "random") :
    s.step dir = s.handle_low_battery := by
  unfold Agent.step
  rw [if_pos h]

/-- C9 counterexample: on `lowBatAgent` the step takes the low-battery
navigate-to-charger branch, which returns before the common step event
is recorded and records nothing of its own: the `decisions_made` stream
stays empty and `steps_taken` stays 0, contradicting the claim that the
navigate-to-charger branch still emits a step event. -/
theorem step_charger_nav_emits_no_event :
    lowBatAgent.battery.needs_charging 20 = true ∧
      lowBatAgent.strategy ≠ "random" ∧
      (lowBatAgent.x, lowBatAgent.y) ≠ lowBatAgent.charger_pos ∧
      (lowBatAgent.step (0, 1)).metrics.decisions_made = [] ∧
      (lowBatAgent.step (0, 1)).metrics.steps_taken = 0 := by
  decide

/-- C9 amended: a step emits exactly one step event (new position,
battery level after the step, action label and strategy) when the
low-battery override does not fire — action "move" — and when it fires
with the agent on the charger — action "charging"; the low-battery
navigate-to-charger branch emits no step event at all. -/
theorem step_event_emission (s : Agent) (dir : ℤ × ℤ) :
    (¬ (s.battery.needs_charging 20 = true ∧ s.strategy ≠ "random") →
      (s.step dir).metrics.decisions_made =
        s.metrics.decisions_made ++
          [⟨s.metrics.steps_taken + 1,
            ((s.exec_strategy dir).x, (s.exec_strategy dir).y), ("move"),
            (s.exec_strategy dir).battery.current, s.strategy⟩]) ∧
    (s.battery.needs_charging 20 = true ∧ s.strategy ≠ "random" →
      ((s.x, s.y) = s.charger_pos →
        (s.step dir).metrics.decisions_made =
          s.metrics.decisions_made ++
            [⟨s.metrics.steps_taken + 1, (s.x, s.y), ("charging"),
              (s.battery.charge).current, s.strategy⟩]) ∧
      ((s.x, s.y) ≠ s.charger_pos →
        (s.step dir).metrics.decisions_made = s.metrics.decisions_made)) := by
  constructor
  · intro hlow
    rw [step_not_lowbat s dir hlow]
    obtain ⟨hdec, -⟩ := clean_metrics_decisions (s.move_phase dir)
    rw [hdec]
    obtain ⟨-, hmet, hstrat, -, -⟩ := exec_strategy_frame dir s
    show ((s.exec_strategy dir).metrics.record_step _ _ _ _).decisions_made = _
    rw [Metrics.record_step, hmet, hstrat]
  · intro hlow
    rw [step_lowbat s dir hlow]
    constructor
    · intro hat
      simp only [Agent.handle_low_battery, if_pos hat]
      rfl
    · intro hat
      simp only [Agent.handle_low_battery, if_neg hat]
      repeat' split
      all_goals rfl

/-- Witness for C9: `lowBatAgent` takes the navigate-to-charger branch,
whose step leaves the event stream unchanged. -/
theorem step_event_emission_witness :
    (lowBatAgent.battery.needs_charging 20 = true ∧
        lowBatAgent.strategy ≠ "random") ∧
      (lowBatAgent.x, lowBatAgent.y) ≠ lowBatAgent.charger_pos ∧
      (lowBatAgent.step (0, 1)).metrics.decisions_made =
        lowBatAgent.metrics.decisions_made :=
  ⟨by decide, by decide,
    ((step_event_emission lowBatAgent (0, 1)).2 (by decide)).2 (by decide)⟩

/-! ## C10: the conservation branch of the Adaptive strategy -/

/-- C10: with the `optimized` strategy, when the low-battery override
does not fire (battery above 20) and the battery is strictly below 30,
the movement phase of the step leaves position, battery, environment,
cleaned counter, visited set and metrics unchanged; it only recomputes
the pending path toward the head of the radius-2 nearby-dirt list (or
leaves the path alone), and the step still proceeds to the recording and
cleaning phase. -/
theorem optimized_low_battery_conserves (s : Agent) (dir : ℤ × ℤ)
    (hstrat : s.strategy = "optimized")
    (hover : ¬ s.battery.needs_charging 20 = true)
    (hc : s.battery.current < 30) :
    (s.exec_strategy dir).x = s.x ∧ (s.exec_strategy dir).y = s.y ∧
    (s.exec_strategy dir).battery = s.battery ∧
    (s.exec_strategy dir).env = s.env ∧
    (s.exec_strategy dir).cleaned = s.cleaned ∧
    (s.exec_strategy dir).visited = s.visited ∧
    (s.exec_strategy dir).metrics = s.metrics ∧
    ((s.exec_strategy dir).path = s.path ∨
      ∃ t rest, s.get_nearby_dirt 2 = t :: rest ∧
        (s.exec_strategy dir).path = s.a_star (s.x, s.y) t) ∧
    s.step dir = (s.move_phase dir).clean := by
  have hstep := step_not_lowbat s dir (by rintro ⟨hn, -⟩; exact hover hn)
  have hexec : s.exec_strategy dir = s.optimized_step := by
    unfold Agent.exec_strategy
    rw [hstrat, if_neg (by decide), if_neg (by decide), if_pos rfl]
  rw [hexec]
  unfold Agent.optimized_step
  rw [if_pos hc]
  cases hnd : s.get_nearby_dirt 2 with
  | nil =>
    exact ⟨rfl, rfl, rfl, rfl, rfl, rfl, rfl, Or.inl rfl, hstep⟩
  | cons t rest =>
    dsimp only
    by_cases hcond : s.path = [] ∨ s.path.getLast? ≠ some t
    · rw [if_pos hcond]
      exact ⟨rfl, rfl, rfl, rfl, rfl, rfl, rfl, Or.inr ⟨t, rest, rfl, rfl⟩, hstep⟩
    · rw [if_neg hcond]
      exact ⟨rfl, rfl, rfl, rfl, rfl, rfl, rfl, Or.inl rfl, hstep⟩

/-- Witness for C10 on `conservAgent` (battery 25, `optimized`):
the movement phase leaves position and battery untouched. -/
theorem optimized_low_battery_conserves_witness :
    (conservAgent.strategy = "optimized" ∧
        ¬ conservAgent.battery.needs_charging 20 = true ∧
        conservAgent.battery.current < 30) ∧
      (conservAgent.exec_strategy (0, 1)).x = conservAgent.x ∧
      (conservAgent.exec_strategy (0, 1)).y = conservAgent.y ∧
      (conservAgent.exec_strategy (0, 1)).battery = conservAgent.battery :=
  ⟨⟨by decide, by decide, by decide⟩,
    (optimized_low_battery_conserves conservAgent (0, 1) (by decide) (by decide)
      (by decide)).1,
    (optimized_low_battery_conserves conservAgent (0, 1) (by decide) (by decide)
      (by decide)).2.1,
    (optimized_low_battery_conserves conservAgent (0, 1) (by decide) (by decide)
      (by decide)).2.2.1⟩

/-! ## C3: optimal path length on the obstacle-free 5 × 5 grid -/

set_option maxRecDepth 100000 in
/-- C3: with `epsilon = 1` on the obstacle-free 5 × 5 grid, `a_star`
from (0, 0) to (4, 4) returns a sequence whose length is 8 — the
Manhattan distance between the two cells — excluding the start cell and
ending at the goal cell; the agent method `a_star` with a clamped
epsilon of 1 computes exactly this function. -/
theorem astar_optimal_on_free_grid :
    heuristic (0, 0) (4, 4) = 8 ∧
      (aStar freeGrid5 5 1 (0, 0) (4, 4)).length = 8 ∧
      (aStar freeGrid5 5 1 (0, 0) (4, 4)).getLast? = some (4, 4) ∧
      (0, 0) ∉ aStar freeGrid5 5 1 (0, 0) (4, 4) ∧
      (Agent.init ⟨5, freeGrid5⟩ ("astar") 1).a_star (0, 0) (4, 4) =
        aStar freeGrid5 5 1 (0, 0) (4, 4) := by
  decide

/-! ## C4: the degenerate cases of `a_star` -/

lemma popMin_mem : ∀ {l : List Entry} {e : Entry} {rest : List Entry},
    popMin l = some (e, rest) → e ∈ l := by
  intro l
  induction l with
  | nil => intro e rest h; simp [popMin] at h
  | cons a as ih =>
    intro e rest h
    cases hr : popMin as with
    | none =>
      have hstep : popMin (a :: as) = some (a, []) := by
        simp only [popMin, hr]
      rw [hstep] at h
      injection h with h2
      injection h2 with h3 h4
      subst h3
      exact List.mem_cons_self a as
    | some p =>
      obtain ⟨m, r2⟩ := p
      have hstep : popMin (a :: as) =
          if entryLeB a m then some (a, as) else some (m, a :: r2) := by
        simp only [popMin, hr]
      rw [hstep] at h
      split_ifs at h
      · injection h with h2
        injection h2 with h3 h4
        subst h3
        exact List.mem_cons_self a as
      · injection h with h2
        injection h2 with h3 h4
        subst h3
        exact List.mem_cons_of_mem a (ih hr)

lemma popMin_rest_mem : ∀ {l : List Entry} {e : Entry} {rest : List Entry},
    popMin l = some (e, rest) → ∀ x ∈ rest, x ∈ l := by
  intro l
  induction l with
  | nil => intro e rest h; simp [popMin] at h
  | cons a as ih =>
    intro e rest h x hx
    cases hr : popMin as with
    | none =>
      have hstep : popMin (a :: as) = some (a, []) := by
        simp only [popMin, hr]
      rw [hstep] at h
      injection h with h2
      injection h2 with h3 h4
      subst h4
      simp at hx
    | some p =>
      obtain ⟨m, r2⟩ := p
      have hstep : popMin (a :: as) =
          if entryLeB a m then some (a, as) else some (m, a :: r2) := by
        simp only [popMin, hr]
      rw [hstep] at h
      split_ifs at h
      · injection h with h2
        injection h2 with h3 h4
        subst h4
        exact List.mem_cons_of_mem a hx
      · injection h with h2
        injection h2 with h3 h4
        subst h4
        rcases List.mem_cons.1 hx with hxa | hx2
        · subst hxa
          exact List.mem_cons_self x as
        · exact List.mem_cons_of_mem a (ih hr x hx2)

lemma expand_pos_mem {grid : Grid} {size : ℕ} {eps : ℚ} {goal : Pos}
    {visited : List Pos} {e e2 : Entry}
    (h : e2 ∈ expand grid size eps goal visited e) :
    ∃ d ∈ [((0 : ℤ), (1 : ℤ)), (0, -1), (1, 0), (-1, 0)],
      e2.pos = (e.pos.1 + d.1, e.pos.2 + d.2) ∧ validCell grid size e2.pos := by
  unfold expand at h
  rcases List.mem_filterMap.1 h with ⟨d, hd, hf⟩
  dsimp only at hf
  split_ifs at hf with hcond
  · injection hf with hf2
    subst hf2
    exact ⟨d, hd, rfl,
      ⟨hcond.1, hcond.2.1, hcond.2.2.1, hcond.2.2.2.1, hcond.2.2.2.2.1⟩⟩

lemma valid_of_reaches {grid : Grid} {size : ℕ} {start p : Pos}
    (hstart : validCell grid size start) (h : reaches grid size start p) :
    validCell grid size p := by
  induction h with
  | refl => exact hstart
  | tail _ hadj ih => exact hadj.2.1

/-- Frontier invariant of the search loop: if every queued cell is
reachable from the start and the goal is not, the loop can only finish
by draining the frontier, returning the empty sequence. -/
lemma aStarLoop_unreachable (grid : Grid) (size : ℕ) (eps : ℚ)
    (start goal : Pos) (hstart : validCell grid size start)
    (hunreach : ¬ reaches grid size start goal) :
    ∀ fuel frontier visited,
      (∀ e ∈ frontier, reaches grid size start e.pos) →
      ∀ r, aStarLoop grid size eps goal fuel frontier visited = some r →
        r = [] := by
  intro fuel
  induction fuel with
  | zero =>
    intro frontier visited hinv r hr
    simp [aStarLoop] at hr
  | succ n ih =>
    intro frontier visited hinv r hr
    simp only [aStarLoop] at hr
    cases hpop : popMin frontier with
    | none =>
      rw [hpop] at hr
      injection hr with hr2
      exact hr2.symm
    | some p =>
      obtain ⟨e, rest⟩ := p
      rw [hpop] at hr
      dsimp only at hr
      by_cases hgoal : e.pos = goal
      · exact absurd (hgoal ▸ hinv e (popMin_mem hpop)) hunreach
      · rw [if_neg hgoal] at hr
        by_cases hvis : e.pos ∈ visited
        · rw [if_pos hvis] at hr
          exact ih rest visited
            (fun x hx => hinv x (popMin_rest_mem hpop x hx)) r hr
        · rw [if_neg hvis] at hr
          refine ih _ _ ?_ r hr
          intro x hx
          rcases List.mem_append.1 hx with hx1 | hx2
          · exact hinv x (popMin_rest_mem hpop x hx1)
          · have hre : reaches grid size start e.pos :=
              hinv e (popMin_mem hpop)
            have hve : validCell grid size e.pos :=
              valid_of_reaches hstart hre
            rcases expand_pos_mem hx2 with ⟨d, hd, hpos, hvx⟩
            refine Relation.ReflTransGen.tail hre ⟨hve, hvx, ?_⟩
            have hdiff : (x.pos.1 - e.pos.1, x.pos.2 - e.pos.2) = d := by
              rw [hpos]
              obtain ⟨d1, d2⟩ := d
              simp
            rw [hdiff]
            exact hd

/-- C4: for every grid and in-bounds non-obstacle start and goal,
`a_star` returns the empty sequence when the start equals the goal
(the first pop is the goal and `path[1:]` of `[start]` is empty), and
returns the empty sequence when the goal is unreachable through
non-obstacle cells (the goal is never popped and the frontier drains);
the function is total, so no error is raised in either case. -/
theorem astar_degenerate_cases (grid : Grid) (size : ℕ) (eps : ℚ)
    (start goal : Pos)
    (hstart : validCell grid size start) (hgoal : validCell grid size goal) :
    (start = goal → aStar grid size eps start goal = []) ∧
    (¬ reaches grid size start goal → aStar grid size eps start goal = []) := by
  constructor
  · rintro rfl
    unfold aStar
    have hf : aStarFuel size = 5 * size * size + 11 + 1 := by
      unfold aStarFuel
      omega
    rw [hf]
    simp [aStarLoop, popMin]
  · intro hun
    unfold aStar
    cases hres : aStarLoop grid size eps goal (aStarFuel size)
        [⟨((heuristic start goal : ℤ) : ℚ), 0, start, [start]⟩] [] with
    | none => rfl
    | some r =>
      have hr : r = [] := by
        refine aStarLoop_unreachable grid size eps start goal hstart hun
          (aStarFuel size) _ [] ?_ r hres
        intro e he
        rcases List.mem_singleton.1 he with rfl
        exact Relation.ReflTransGen.refl
      rw [hr]
      rfl

lemma no_adjStep_into_corner (p : Pos) : ¬ adjStep walledGrid3 3 p (2, 2) := by
  rintro ⟨hp, hq, hd⟩
  obtain ⟨p1, p2⟩ := p
  obtain ⟨hp0, hp1, hp2, hp3, hp4⟩ := hp
  simp only [List.mem_cons, List.not_mem_nil, or_false, Prod.mk.injEq] at hd
  rcases hd with ⟨h1, h2⟩ | ⟨h1, h2⟩ | ⟨h1, h2⟩ | ⟨h1, h2⟩
  · have hx : p1 = 2 := by omega
    have hy : p2 = 1 := by omega
    subst hx
    subst hy
    exact hp4 (by decide)
  · omega
  · have hx : p1 = 1 := by omega
    have hy : p2 = 2 := by omega
    subst hx
    subst hy
    exact hp4 (by decide)
  · omega

lemma walledGrid3_goal_unreachable : ¬ reaches walledGrid3 3 (0, 0) (2, 2) := by
  intro h
  rcases Relation.ReflTransGen.cases_tail h with heq | ⟨c, -, hadj⟩
  · exact absurd heq (by decide)
  · exact no_adjStep_into_corner c hadj

/-- Witness for C4 on `walledGrid3`, whose cell (2, 2) is enclosed by
the obstacles at (1, 2) and (2, 1): `a_star` returns the empty sequence
both for `start = goal` and for the unreachable enclosed goal. -/
theorem astar_degenerate_cases_witness :
    (validCell walledGrid3 3 (0, 0) ∧ validCell walledGrid3 3 (2, 2)) ∧
      aStar walledGrid3 3 1 (0, 0) (0, 0) = [] ∧
      aStar walledGrid3 3 1 (0, 0) (2, 2) = [] := by
  refine ⟨⟨by decide, by decide⟩, ?_, ?_⟩
  · exact (astar_degenerate_cases walledGrid3 3 1 (0, 0) (0, 0)
      (by decide) (by decide)).1 rfl
  · exact (astar_degenerate_cases walledGrid3 3 1 (0, 0) (2, 2)
      (by decide) (by decide)).2 walledGrid3_goal_unreachable

end VacuumSim
